import Mathlib

/-!
Shallow embedding of the creack/goproxy repository (registry.go, goproxy.go,
websocket.go) together with proofs about the embedded definitions.

Go maps `map[string]V` are embedded as association lists `List (String × V)`
with first-key-wins access; Go slices `[]string` as `List String`; Go strings
handled by `strings.Split` / `strings.Join` as `List Char`.
-/

set_option autoImplicit false

/-- Go map read `m[k]` with its `ok` flag: first entry whose key is `k`. -/
def mapGet? {α : Type} (m : List (String × α)) (k : String) : Option α :=
  match m with
  | [] => none
  | (k', v) :: rest => if k' = k then some v else mapGet? rest k

/-- Go map write `m[k] = v`: replace the (unique) entry for `k`, or append it. -/
def mapSet {α : Type} (m : List (String × α)) (k : String) (v : α) :
    List (String × α) :=
  match m with
  | [] => [(k, v)]
  | (k', v') :: rest => if k' = k then (k', v) :: rest else (k', v') :: mapSet rest k v

/-- `DefaultRegistry` from registry.go:
`map[string]map[string][]string` (service name ↦ version ↦ endpoint list). -/
abbrev DefaultRegistry : Type := List (String × List (String × List String))

/-- The two-level read `r[name][version]` with its combined `ok` flag:
`ok` is false when the name is absent or the version is absent. -/
def regGet (r : DefaultRegistry) (name version : String) : Option (List String) :=
  match mapGet? r name with
  | none => none
  | some service => mapGet? service version

/-- `ErrServiceNotFound` from registry.go. -/
def errServiceNotFound : String := "service name/version not found"

/-- `DefaultRegistry.Lookup`: `targets, ok := r[name][version]`; if `!ok`
return `ErrServiceNotFound`, else return `targets` (even when empty). -/
def DefaultRegistry.Lookup (r : DefaultRegistry) (name version : String) :
    Except String (List String) :=
  match regGet r name version with
  | none => Except.error errServiceNotFound
  | some targets => Except.ok targets

/-- `DefaultRegistry.Add`: create the inner map when the name is absent, then
`service[version] = append(service[version], endpoint)` (missing version reads
as the empty slice). -/
def DefaultRegistry.Add (r : DefaultRegistry) (name version endpoint : String) :
    DefaultRegistry :=
  let service := (mapGet? r name).getD []
  mapSet r name (mapSet service version (((mapGet? service version).getD []) ++ [endpoint]))

/-- One pass of the `begin:` loop body of `DefaultRegistry.Delete`: scan for the
first element equal to `endpoint` and remove it (the Go code shifts the tail
left with `copy` and truncates by one), returning `none` when no match exists. -/
def removeFirstMatch (endpoint : String) : List String → Option (List String)
  | [] => none
  | svc :: rest =>
    if svc = endpoint then some rest
    else (removeFirstMatch endpoint rest).map (svc :: ·)

theorem removeFirstMatch_length {endpoint : String} :
    ∀ {l l' : List String}, removeFirstMatch endpoint l = some l' →
      l'.length < l.length := by
  intro l
  induction l with
  | nil => intro l' h; simp [removeFirstMatch] at h
  | cons x xs ih =>
    intro l' h
    by_cases hx : x = endpoint
    · simp [removeFirstMatch, hx] at h
      subst h; simp
    · simp [removeFirstMatch, hx] at h
      obtain ⟨a, ha, rfl⟩ := h
      simpa using Nat.succ_lt_succ (ih ha)

/-- The `begin:`/`goto begin` loop of `DefaultRegistry.Delete`: repeatedly
remove the first occurrence of `endpoint` and restart the scan, until no
occurrence remains. -/
def deleteLoop (endpoint : String) (l : List String) : List String :=
  match h : removeFirstMatch endpoint l with
  | none => l
  | some l' => deleteLoop endpoint l'
termination_by l.length
decreasing_by exact removeFirstMatch_length h

/-- `DefaultRegistry.Delete`: no-op when the service name is absent; otherwise
run the removal loop on `service[version]` (a missing version reads as the
empty slice, on which the loop does nothing and the registry is unchanged). -/
def DefaultRegistry.Delete (r : DefaultRegistry) (name version endpoint : String) :
    DefaultRegistry :=
  match mapGet? r name with
  | none => r
  | some service =>
    match mapGet? service version with
    | none => r
    | some eps => mapSet r name (mapSet service version (deleteLoop endpoint eps))

theorem removeFirstMatch_none {endpoint : String} :
    ∀ {l : List String}, removeFirstMatch endpoint l = none → endpoint ∉ l := by
  intro l
  induction l with
  | nil => intro _; simp
  | cons x xs ih =>
    intro h
    by_cases hx : x = endpoint
    · simp [removeFirstMatch, hx] at h
    · simp [removeFirstMatch, hx] at h
      simp [ih h, Ne.symm hx]

theorem removeFirstMatch_filter {endpoint : String} :
    ∀ {l l' : List String}, removeFirstMatch endpoint l = some l' →
      l'.filter (fun x => x ≠ endpoint) = l.filter (fun x => x ≠ endpoint) := by
  intro l
  induction l with
  | nil => intro l' h; simp [removeFirstMatch] at h
  | cons x xs ih =>
    intro l' h
    by_cases hx : x = endpoint
    · simp [removeFirstMatch, hx] at h
      subst h
      simp [hx, List.filter_cons]
    · simp [removeFirstMatch, hx] at h
      obtain ⟨a, ha, rfl⟩ := h
      have hfa := ih ha
      simp only [ne_eq, decide_not] at hfa ⊢
      simp [List.filter_cons, hx, hfa]

theorem deleteLoop_eq_filter (endpoint : String) (l : List String) :
    deleteLoop endpoint l = l.filter (fun x => x ≠ endpoint) := by
  rw [deleteLoop]
  split
  · rename_i h
    exact (List.filter_eq_self.2 (fun a ha => by
      simp only [ne_eq, decide_eq_true_eq]
      intro hae
      exact removeFirstMatch_none h (hae ▸ ha))).symm
  · rename_i l' h
    rw [deleteLoop_eq_filter endpoint l', removeFirstMatch_filter h]
termination_by l.length
decreasing_by exact removeFirstMatch_length (by assumption)

theorem mem_deleteLoop {endpoint x : String} {l : List String} :
    x ∈ deleteLoop endpoint l → x ≠ endpoint := by
  rw [deleteLoop_eq_filter]
  intro h
  simpa using (List.of_mem_filter h)

theorem mapGet?_mapSet_self {α : Type} (m : List (String × α)) (k : String) (v : α) :
    mapGet? (mapSet m k v) k = some v := by
  induction m with
  | nil => simp [mapGet?, mapSet]
  | cons p rest ih =>
    obtain ⟨k', v'⟩ := p
    by_cases h : k' = k
    · simp [mapGet?, mapSet, h]
    · simp [mapGet?, mapSet, h, ih]

theorem mapSet_self {α : Type} {m : List (String × α)} {k : String} {v : α} :
    mapGet? m k = some v → mapSet m k v = m := by
  induction m with
  | nil => intro h; simp [mapGet?] at h
  | cons p rest ih =>
    obtain ⟨k', v'⟩ := p
    intro h
    by_cases hk : k' = k
    · simp [mapGet?, hk] at h
      simp [mapSet, hk, h]
    · simp [mapGet?, hk] at h
      simp [mapSet, hk, ih h]

/-- The `Registry` interface of registry.go, as seen by `loadBalance`: a state
type `σ` with the two methods `loadBalance` invokes. `lookup` returns the
endpoint list (or an error) together with the registry state after the call;
`failure` returns the registry state after the advisory hook. The dial error
value is only passed on to `Failure`/the log, so it is not carried here. -/
structure RegistryOps (σ : Type) where
  lookup : σ → String → String → Except String (List String) × σ
  failure : σ → String → String → String → σ

/-- Outcome of `loadBalance`: a live connection to an endpoint, the propagated
`Lookup` error, or the final "No endpoint available" error. -/
inductive LBResult where
  | conn (endpoint : String)
  | serviceNotFound
  | noEndpoint
deriving DecidableEq, Repr

/-- The index selection `i := rand.Int() % len(endpoints)` of `loadBalance`
(`rand.Int` is non-negative, hence the draw stream is `Nat`-valued; `k` counts
the draws made so far). -/
def selectIndex (rand : Nat → Nat) (k : Nat) (endpoints : List String) : Nat :=
  rand k % endpoints.length

/-- The value of the LOCAL slice header after
`endpoints = append(endpoints[:i], endpoints[i+1:]...)` in `loadBalance`: the
sequence of elements the loop itself observes afterwards. In Go this append
also writes in place through the backing array that the slice returned by
`Lookup` shares with the registry's stored entry; that heap effect is modeled
separately by `appendInPlace` below, and `appendInPlace_take` /
`loadBalanceLoopAliased_fst` prove that `removeLocal` is exactly the loop's
local view of it, so the dial order, result and `Failure` calls proven about
this pure loop are those of the aliased code. -/
def removeLocal (endpoints : List String) (i : Nat) : List String :=
  endpoints.take i ++ endpoints.drop (i + 1)

theorem selectIndex_lt (rand : Nat → Nat) (k : Nat) {endpoints : List String}
    (h : endpoints ≠ []) : selectIndex rand k endpoints < endpoints.length :=
  Nat.mod_lt _ (List.length_pos.2 h)

theorem removeLocal_length {endpoints : List String} {i : Nat}
    (h : i < endpoints.length) :
    (removeLocal endpoints i).length = endpoints.length - 1 := by
  simp only [removeLocal, List.length_append, List.length_take, List.length_drop]
  omega

/-- The retry loop of `loadBalance`: while the local list is non-empty, pick a
random index, dial that endpoint; on success return the connection, on failure
invoke the registry `Failure` hook and remove the endpoint from the local
list. `dial` abstracts `dialer(network, endpoint)` as the failure/success
outcome of dialing a given endpoint. -/
def loadBalanceLoop {σ : Type} (ops : RegistryOps σ) (dial : String → Bool)
    (rand : Nat → Nat) (name version : String) (k : Nat)
    (endpoints : List String) (s : σ) : LBResult × σ :=
  if h : endpoints = [] then (LBResult.noEndpoint, s)
  else if dial (endpoints.getD (selectIndex rand k endpoints) "") then
    (LBResult.conn (endpoints.getD (selectIndex rand k endpoints) ""), s)
  else
    loadBalanceLoop ops dial rand name version (k + 1)
      (removeLocal endpoints (selectIndex rand k endpoints))
      (ops.failure s name version (endpoints.getD (selectIndex rand k endpoints) ""))
termination_by endpoints.length
decreasing_by
  rw [removeLocal_length (selectIndex_lt rand k h)]
  exact Nat.sub_lt (List.length_pos.2 h) Nat.one_pos

/-- `loadBalance` from goproxy.go: look the service up in the registry,
propagating a lookup error, then run the retry loop on the returned list. -/
def loadBalance {σ : Type} (ops : RegistryOps σ) (dial : String → Bool)
    (rand : Nat → Nat) (serviceName serviceVersion : String) (s : σ) :
    LBResult × σ :=
  match ops.lookup s serviceName serviceVersion with
  | (Except.error _, s') => (LBResult.serviceNotFound, s')
  | (Except.ok endpoints, s') =>
    loadBalanceLoop ops dial rand serviceName serviceVersion 0 endpoints s'

/-- An instrumented `Registry` whose `Lookup` always returns `eps` and whose
`Failure` hook appends the failed endpoint to a log — used to observe exactly
which endpoints `loadBalance` reports as failed. -/
def logOps (eps : List String) : RegistryOps (List String) where
  lookup := fun s _ _ => (Except.ok eps, s)
  failure := fun s _ _ e => s ++ [e]

theorem removeLocal_perm {endpoints : List String} {i : Nat}
    (h : i < endpoints.length) :
    endpoints.Perm (endpoints.getD i "" :: removeLocal endpoints i) := by
  induction endpoints generalizing i with
  | nil => simp at h
  | cons x xs ih =>
    match i with
    | 0 => simp [removeLocal]
    | j + 1 =>
      have hj : j < xs.length := by simpa using h
      have hperm := (ih hj).cons x
      have hswap : List.Perm (x :: xs.getD j "" :: removeLocal xs j)
          (xs.getD j "" :: x :: removeLocal xs j) := List.Perm.swap _ _ _
      have heq : xs.getD j "" :: x :: removeLocal xs j
          = (x :: xs).getD (j + 1) "" :: removeLocal (x :: xs) (j + 1) := by
        simp [removeLocal, List.getD_cons_succ, List.take_succ_cons,
          List.drop_succ_cons]
      exact heq ▸ (hperm.trans hswap)

theorem getD_mem {l : List String} {i : Nat} (h : i < l.length) :
    l.getD i "" ∈ l := by
  rw [List.getD_eq_getElem?_getD, List.getElem?_eq_getElem h]
  exact List.getElem_mem h

theorem removeLocal_subset (eps : List String) (i : Nat) :
    removeLocal eps i ⊆ eps := by
  intro x hx
  rcases List.mem_append.1 hx with h | h
  · exact List.take_subset _ _ h
  · exact List.drop_subset _ _ h

theorem loadBalanceLoop_allfail (eps L : List String) (dial : String → Bool)
    (rand : Nat → Nat) (n v : String) (hfail : ∀ e ∈ eps, dial e = false)
    (k : Nat) (s : List String) :
    (loadBalanceLoop (logOps L) dial rand n v k eps s).1 = LBResult.noEndpoint ∧
    ∃ p, (loadBalanceLoop (logOps L) dial rand n v k eps s).2 = s ++ p ∧
      p.Perm eps := by
  rw [loadBalanceLoop]
  split
  · rename_i h
    subst h
    exact ⟨rfl, [], by simp, List.Perm.refl _⟩
  · rename_i hne
    have hi := selectIndex_lt rand k hne
    have hmem : eps.getD (selectIndex rand k eps) "" ∈ eps := getD_mem hi
    rw [if_neg (by rw [hfail _ hmem]; exact Bool.false_ne_true)]
    have hfail' : ∀ e ∈ removeLocal eps (selectIndex rand k eps), dial e = false :=
      fun e he => hfail e (removeLocal_subset _ _ he)
    obtain ⟨h1, p, h2, h3⟩ := loadBalanceLoop_allfail
      (removeLocal eps (selectIndex rand k eps)) L dial rand n v hfail' (k + 1)
      ((logOps L).failure s n v (eps.getD (selectIndex rand k eps) ""))
    refine ⟨h1, eps.getD (selectIndex rand k eps) "" :: p, ?_, ?_⟩
    · rw [h2]
      simp [logOps]
    · exact (h3.cons _).trans (removeLocal_perm hi).symm
termination_by eps.length
decreasing_by
  rw [removeLocal_length (selectIndex_lt rand k (by assumption))]
  exact Nat.sub_lt (List.length_pos.2 (by assumption)) Nat.one_pos

theorem loadBalanceLoop_success (eps L : List String) (dial : String → Bool)
    (rand : Nat → Nat) (n v : String) (hsome : ∃ e ∈ eps, dial e = true)
    (k : Nat) (s : List String) :
    ∃ e p,
      loadBalanceLoop (logOps L) dial rand n v k eps s = (LBResult.conn e, s ++ p) ∧
      e ∈ eps ∧ dial e = true ∧ (∀ x ∈ p, x ∈ eps ∧ dial x = false) ∧
      p.Subperm eps := by
  rw [loadBalanceLoop]
  split
  · rename_i h
    subst h
    obtain ⟨e, he, _⟩ := hsome
    simp at he
  · rename_i hne
    have hi := selectIndex_lt rand k hne
    by_cases hd : dial (eps.getD (selectIndex rand k eps) "") = true
    · rw [if_pos hd]
      exact ⟨_, [], by simp, getD_mem hi, hd, by simp, List.nil_subperm⟩
    · have hd' : dial (eps.getD (selectIndex rand k eps) "") = false := by
        simpa using hd
      rw [if_neg (by rw [hd']; exact Bool.false_ne_true)]
      have hsome' : ∃ e ∈ removeLocal eps (selectIndex rand k eps), dial e = true := by
        obtain ⟨e, he, hde⟩ := hsome
        refine ⟨e, ?_, hde⟩
        have hne' : e ≠ eps.getD (selectIndex rand k eps) "" := by
          intro heq
          rw [heq, hd'] at hde
          exact Bool.false_ne_true hde
        rcases List.mem_cons.1 ((removeLocal_perm hi).mem_iff.1 he) with h | h
        · exact absurd h hne'
        · exact h
      obtain ⟨e, p, heq, hmem, hde, hall, hsub⟩ := loadBalanceLoop_success
        (removeLocal eps (selectIndex rand k eps)) L dial rand n v hsome' (k + 1)
        ((logOps L).failure s n v (eps.getD (selectIndex rand k eps) ""))
      refine ⟨e, eps.getD (selectIndex rand k eps) "" :: p, ?_,
        removeLocal_subset _ _ hmem, hde, ?_, ?_⟩
      · rw [heq]
        simp [logOps]
      · intro x hx
        rcases List.mem_cons.1 hx with h | h
        · exact h ▸ ⟨getD_mem hi, hd'⟩
        · exact ⟨removeLocal_subset _ _ (hall x h).1, (hall x h).2⟩
      · exact ((List.subperm_cons _).2 hsub).trans (removeLocal_perm hi).symm.subperm
termination_by eps.length
decreasing_by
  rw [removeLocal_length (selectIndex_lt rand k (by assumption))]
  exact Nat.sub_lt (List.length_pos.2 (by assumption)) Nat.one_pos

/-- C2 (amended): `Lookup` fails with `ServiceNotFound` iff the registry has
no `(name, version)` entry at all; an entry holding an empty endpoint list is
NOT a failure — `Lookup` returns the empty list successfully, so it is
distinguishable from an absent entry. -/
theorem lookup_fails_iff_absent (r : DefaultRegistry) (name version : String) :
    r.Lookup name version = Except.error errServiceNotFound ↔
      regGet r name version = none := by
  unfold DefaultRegistry.Lookup
  cases regGet r name version <;> simp

/-- C2 counterexample: a registry entry holding an empty endpoint list makes
`Lookup` return `ok []`, not `ServiceNotFound`, while a truly absent entry
fails — contradicting the claimed "absent or empty ⇒ fails" equivalence. -/
theorem lookup_empty_entry_succeeds :
    DefaultRegistry.Lookup [("svc", [("v1", [])])] "svc" "v1" = Except.ok [] ∧
    DefaultRegistry.Lookup [] "svc" "v1" = Except.error errServiceNotFound := by
  constructor <;> rfl

/-- C5: after `Delete(name, version, endpoint)` every occurrence of the
endpoint is gone (a subsequent `Lookup` result contains it zero times, no
matter how often it was added), and `Delete` is a no-op when the service, the
version, or the endpoint is absent. -/
theorem delete_removes_all_occurrences (r : DefaultRegistry)
    (name version endpoint : String) :
    (∀ eps, (r.Delete name version endpoint).Lookup name version = Except.ok eps →
      eps.count endpoint = 0) ∧
    (regGet r name version = none → r.Delete name version endpoint = r) ∧
    (∀ eps, regGet r name version = some eps → endpoint ∉ eps →
      r.Delete name version endpoint = r) := by
  cases hn : mapGet? r name with
  | none =>
    have hD : r.Delete name version endpoint = r := by
      unfold DefaultRegistry.Delete
      rw [hn]
    have hg : regGet r name version = none := by
      unfold regGet
      rw [hn]
    refine ⟨?_, fun _ => hD, fun eps hge _ => hD⟩
    intro eps hl
    rw [hD] at hl
    unfold DefaultRegistry.Lookup at hl
    rw [hg] at hl
    cases hl
  | some service =>
    cases hv : mapGet? service version with
    | none =>
      have hD : r.Delete name version endpoint = r := by
        unfold DefaultRegistry.Delete
        simp only [hn, hv]
      have hg : regGet r name version = none := by
        unfold regGet
        rw [hn]
        exact hv
      refine ⟨?_, fun _ => hD, fun eps hge _ => hD⟩
      intro eps hl
      rw [hD] at hl
      unfold DefaultRegistry.Lookup at hl
      rw [hg] at hl
      cases hl
    | some eps0 =>
      have hD : r.Delete name version endpoint =
          mapSet r name (mapSet service version (deleteLoop endpoint eps0)) := by
        unfold DefaultRegistry.Delete
        simp only [hn, hv]
      have hg : regGet r name version = some eps0 := by
        unfold regGet
        rw [hn]
        exact hv
      refine ⟨?_, ?_, ?_⟩
      · intro eps hl
        have hga : regGet (r.Delete name version endpoint) name version =
            some (deleteLoop endpoint eps0) := by
          rw [hD]
          unfold regGet
          simp only [mapGet?_mapSet_self]
        unfold DefaultRegistry.Lookup at hl
        rw [hga] at hl
        cases hl
        exact List.count_eq_zero.2 (fun hmem => (mem_deleteLoop hmem) rfl)
      · intro habs
        rw [hg] at habs
        cases habs
      · intro eps hge hnotin
        rw [hg] at hge
        cases hge
        have hdl : deleteLoop endpoint eps0 = eps0 := by
          rw [deleteLoop_eq_filter]
          refine List.filter_eq_self.2 (fun a ha => ?_)
          simp only [ne_eq, decide_eq_true_eq]
          intro hae
          exact hnotin (hae ▸ ha)
        rw [hD, hdl, mapSet_self hv, mapSet_self hn]

/-- Witness for C5 at a concrete registry: deleting `"a"` from an entry that
holds it three times (twice consecutively) leaves a lookup result counting it
zero times. -/
theorem delete_removes_all_occurrences_witness :
    ∃ eps,
      (DefaultRegistry.Delete [("svc", [("v1", ["a", "b", "a", "a"])])]
          "svc" "v1" "a").Lookup "svc" "v1" = Except.ok eps ∧
      eps.count "a" = 0 := by
  have hdl : deleteLoop "a" ["a", "b", "a", "a"] = ["b"] := by
    rw [deleteLoop_eq_filter]
    rfl
  have hl : (DefaultRegistry.Delete [("svc", [("v1", ["a", "b", "a", "a"])])]
      "svc" "v1" "a").Lookup "svc" "v1" = Except.ok ["b"] := by
    show DefaultRegistry.Lookup
        (mapSet [("svc", [("v1", ["a", "b", "a", "a"])])] "svc"
          (mapSet [("v1", ["a", "b", "a", "a"])] "v1"
            (deleteLoop "a" ["a", "b", "a", "a"]))) "svc" "v1" = Except.ok ["b"]
    rw [hdl]
    rfl
  exact ⟨["b"], hl,
    (delete_removes_all_occurrences [("svc", [("v1", ["a", "b", "a", "a"])])]
      "svc" "v1" "a").1 ["b"] hl⟩

/-- C3 (amended): when every endpoint of the entry fails to dial,
`loadBalance` terminates for every random stream and fails with
`NoEndpointAvailable`; the endpoints handed to the `Failure` hook are a
permutation of the entry's list, i.e. each list OCCURRENCE is tried exactly
once (so each distinct endpoint is tried once per occurrence — exactly once
when the entry has no duplicates). -/
theorem loadBalance_allfail_noEndpoint (eps : List String)
    (dial : String → Bool) (rand : Nat → Nat) (name version : String)
    (hfail : ∀ e ∈ eps, dial e = false) :
    (loadBalance (logOps eps) dial rand name version []).1 = LBResult.noEndpoint ∧
    ((loadBalance (logOps eps) dial rand name version []).2).Perm eps := by
  have hrw : loadBalance (logOps eps) dial rand name version [] =
      loadBalanceLoop (logOps eps) dial rand name version 0 eps [] := rfl
  rw [hrw]
  obtain ⟨h1, p, h2, h3⟩ :=
    loadBalanceLoop_allfail eps eps dial rand name version hfail 0 []
  refine ⟨h1, ?_⟩
  rw [h2]
  simpa using h3

/-- Witness for the all-fail theorem at a concrete two-endpoint entry. -/
theorem loadBalance_allfail_noEndpoint_witness :
    (loadBalance (logOps ["a", "b"]) (fun _ => false) (fun _ => 0)
        "svc" "v1" []).1 = LBResult.noEndpoint ∧
    ((loadBalance (logOps ["a", "b"]) (fun _ => false) (fun _ => 0)
        "svc" "v1" []).2).Perm ["a", "b"] :=
  loadBalance_allfail_noEndpoint ["a", "b"] (fun _ => false) (fun _ => 0)
    "svc" "v1" (fun _ _ => rfl)

/-- C3 counterexample: an entry holding the same endpoint twice. Every dial
fails, and the `Failure` hook receives `"a"` twice — the distinct endpoint
`"a"` is tried twice, not "exactly once with no repeats". -/
theorem loadBalance_duplicate_endpoint_tried_twice :
    loadBalance (logOps ["a", "a"]) (fun _ => false) (fun _ => 0)
        "svc" "v1" [] = (LBResult.noEndpoint, ["a", "a"]) ∧
    ((loadBalance (logOps ["a", "a"]) (fun _ => false) (fun _ => 0)
        "svc" "v1" []).2).count "a" = 2 := by
  have h : loadBalance (logOps ["a", "a"]) (fun _ => false) (fun _ => 0)
      "svc" "v1" [] = (LBResult.noEndpoint, ["a", "a"]) := by
    show loadBalanceLoop (logOps ["a", "a"]) (fun _ => false) (fun _ => 0)
        "svc" "v1" 0 ["a", "a"] [] = (LBResult.noEndpoint, ["a", "a"])
    rw [loadBalanceLoop]
    simp only [selectIndex, removeLocal, logOps]
    norm_num
    rw [loadBalanceLoop]
    simp only [selectIndex, removeLocal, logOps]
    norm_num
    rw [loadBalanceLoop]
    simp
  exact ⟨h, by rw [h]; rfl⟩

/-- Dial outcome of the C4 scenario: connecting to endpoints `"A"` and `"B"`
always fails, connecting to `"C"` always succeeds. -/
def dialABC (endpoint : String) : Bool := endpoint == "C"

/-- C4 (amended): with endpoints `[A, B, C]` where A and B always fail and C
always succeeds, `loadBalance` returns a connection to C for EVERY random
stream, returning on the first successful dial; the `Failure` hook receives
only endpoints among `{A, B}`, each at most once — so at most 2 failures and
hence at most 3 dial attempts. (The hook is invoked for both A and B only on
the streams that pick them before C, not on every stream.) -/
theorem loadBalance_reaches_C (rand : Nat → Nat) (name version : String) :
    ∃ p, loadBalance (logOps ["A", "B", "C"]) dialABC rand name version [] =
        (LBResult.conn "C", p) ∧
      p ⊆ ["A", "B"] ∧ p.Nodup ∧ p.length ≤ 2 := by
  have hrw : loadBalance (logOps ["A", "B", "C"]) dialABC rand name version [] =
      loadBalanceLoop (logOps ["A", "B", "C"]) dialABC rand name version 0
        ["A", "B", "C"] [] := rfl
  obtain ⟨e, p, heq, hmem, hde, hall, hsub⟩ :=
    loadBalanceLoop_success ["A", "B", "C"] ["A", "B", "C"] dialABC rand
      name version ⟨"C", by simp, rfl⟩ 0 []
  have heC : e = "C" := by
    simp only [List.mem_cons, List.not_mem_nil, or_false] at hmem
    rcases hmem with h | h | h
    · rw [h] at hde; cases hde
    · rw [h] at hde; cases hde
    · exact h
  have hsubset : p ⊆ ["A", "B"] := by
    intro x hx
    obtain ⟨hxe, hxd⟩ := hall x hx
    simp only [List.mem_cons, List.not_mem_nil, or_false] at hxe
    rcases hxe with h | h | h
    · simp [h]
    · simp [h]
    · rw [h] at hxd; cases hxd
  have hnodup : p.Nodup := by
    obtain ⟨l, hlp, hls⟩ := hsub
    exact (hlp.nodup_iff).1 (hls.nodup (by decide))
  refine ⟨p, ?_, hsubset, hnodup, ?_⟩
  · rw [hrw]
    rw [heC] at heq
    simpa using heq
  · simpa using (hnodup.subperm hsubset).length_le

/-- C4 counterexample: the random stream that picks index 2 first dials C
immediately, so the run succeeds without invoking the `Failure` hook for A or
for B at all — the hook is not invoked "exactly for A and B" on every random
stream. -/
theorem loadBalance_pickC_no_failures :
    loadBalance (logOps ["A", "B", "C"]) dialABC (fun _ => 2) "svc" "v1" [] =
      (LBResult.conn "C", []) := by
  show loadBalanceLoop (logOps ["A", "B", "C"]) dialABC (fun _ => 2)
      "svc" "v1" 0 ["A", "B", "C"] [] = (LBResult.conn "C", [])
  rw [loadBalanceLoop]
  simp [selectIndex, dialABC]

/-- C10: the selection index `rand.Int() % len(endpoints)` computed by
`loadBalance` is always in range on a non-empty candidate list: the indexed
read is some element of the list, and the local removal drops exactly one
element. -/
theorem selectIndex_in_bounds (rand : Nat → Nat) (k : Nat)
    (endpoints : List String) (h : endpoints ≠ []) :
    selectIndex rand k endpoints < endpoints.length ∧
    endpoints.getD (selectIndex rand k endpoints) "" ∈ endpoints ∧
    (removeLocal endpoints (selectIndex rand k endpoints)).length =
      endpoints.length - 1 := by
  have hi := selectIndex_lt rand k h
  exact ⟨hi, getD_mem hi, removeLocal_length hi⟩

/-- Witness for the bounds theorem at a concrete draw and list. -/
theorem selectIndex_in_bounds_witness :
    selectIndex (fun _ => 7) 0 ["x", "y"] < (["x", "y"] : List String).length ∧
    (["x", "y"] : List String).getD (selectIndex (fun _ => 7) 0 ["x", "y"]) "" ∈
      (["x", "y"] : List String) ∧
    (removeLocal ["x", "y"] (selectIndex (fun _ => 7) 0 ["x", "y"])).length =
      (["x", "y"] : List String).length - 1 :=
  selectIndex_in_bounds (fun _ => 7) 0 ["x", "y"] (by decide)

/-- `strings.ToLower`, embedded as a per-character map (the header tokens the
proxy compares against — "upgrade", "websocket" — are ASCII, where Go's
Unicode lowering and `Char.toLower` agree). -/
def toLowerStr (s : String) : String := ⟨s.data.map Char.toLower⟩

/-- An HTTP request as seen by `IsWebsocket`: the results of
`req.Header.Get("Connection")` and `req.Header.Get("Upgrade")` (the first
value of the header, or the empty string when the header is absent). -/
structure HttpRequest where
  connection : String
  upgrade : String

/-- `IsWebsocket` from goproxy.go: reject unless the `Connection` header
lowercases to "upgrade" and the `Upgrade` header lowercases to "websocket". -/
def IsWebsocket (req : HttpRequest) : Bool :=
  if req.connection = "" ∨ toLowerStr req.connection ≠ "upgrade" then false
  else if req.upgrade = "" ∨ toLowerStr req.upgrade ≠ "websocket" then false
  else true

/-- C6 (amended): `IsWebsocket` classifies a request as an upgrade request iff
the `Connection` header matches "upgrade" case-insensitively AND the `Upgrade`
header matches "websocket" case-insensitively — a merely non-empty `Upgrade`
value is not enough. -/
theorem isWebsocket_iff (req : HttpRequest) :
    IsWebsocket req = true ↔
      (toLowerStr req.connection = "upgrade" ∧
        toLowerStr req.upgrade = "websocket") := by
  constructor
  · intro h
    unfold IsWebsocket at h
    split_ifs at h with h1 h2
    push_neg at h1 h2
    exact ⟨h1.2, h2.2⟩
  · rintro ⟨hc, hu⟩
    have hcne : req.connection ≠ "" := by
      intro h
      rw [h] at hc
      exact absurd hc (by decide)
    have hune : req.upgrade ≠ "" := by
      intro h
      rw [h] at hu
      exact absurd hu (by decide)
    unfold IsWebsocket
    rw [if_neg (by push_neg; exact ⟨hcne, hc⟩),
      if_neg (by push_neg; exact ⟨hune, hu⟩)]

/-- C6 counterexample: `Connection: Upgrade` with the non-empty
`Upgrade: h2c` satisfies the claimed condition (case-insensitive "upgrade"
match plus non-empty `Upgrade` value) yet `IsWebsocket` rejects it, because
the code additionally demands the `Upgrade` value be "websocket". -/
theorem isWebsocket_h2c_false :
    IsWebsocket { connection := "Upgrade", upgrade := "h2c" } = false ∧
    toLowerStr "Upgrade" = "upgrade" ∧ ("h2c" : String) ≠ "" := by
  refine ⟨?_, ?_, ?_⟩ <;> decide

/-- Observable outcome of the `websocketProxy` handler front matter: the HTTP
error status written through `http.Error` (if any) and whether the client
connection was hijacked. -/
structure WsOutcome where
  status : Option Nat
  hijacked : Bool
deriving DecidableEq, Repr

/-- `http.StatusInternalServerError`. -/
def statusInternalServerError : Nat := 500

/-- `websocketProxy` from websocket.go, up to the point the tunnel starts:
obtain a backend connection via `LoadBalance`; on error write "Destination
not reachable." with `http.StatusInternalServerError` and return without
hijacking; on success hijack the client connection when the ResponseWriter
supports it, otherwise write the hijack error, again with status 500. -/
def websocketProxy {σ : Type} (ops : RegistryOps σ) (dial : String → Bool)
    (rand : Nat → Nat) (name version : String) (s : σ) (canHijack : Bool) :
    WsOutcome :=
  match (loadBalance ops dial rand name version s).1 with
  | LBResult.conn _ =>
    if canHijack then { status := none, hijacked := true }
    else { status := some statusInternalServerError, hijacked := false }
  | LBResult.serviceNotFound =>
    { status := some statusInternalServerError, hijacked := false }
  | LBResult.noEndpoint =>
    { status := some statusInternalServerError, hijacked := false }

/-- A "502-class" HTTP status, following the spec's words: a gateway error in
the 502–504 range (Bad Gateway / Service Unavailable / Gateway Timeout). -/
def gateway502Range (status : Nat) : Prop := 502 ≤ status ∧ status ≤ 504

/-- C7 (amended): when the Load Balancer cannot provide a backend connection,
`websocketProxy` responds with HTTP 500 (`http.StatusInternalServerError` —
not a 502-class gateway status) and stops without hijacking the client
connection. -/
theorem websocketProxy_error_responds_500 {σ : Type} (ops : RegistryOps σ)
    (dial : String → Bool) (rand : Nat → Nat) (name version : String)
    (s : σ) (canHijack : Bool)
    (h : ∀ e, (loadBalance ops dial rand name version s).1 ≠ LBResult.conn e) :
    websocketProxy ops dial rand name version s canHijack =
      { status := some statusInternalServerError, hijacked := false } := by
  unfold websocketProxy
  split
  · rename_i e heq
    exact absurd heq (h e)
  · rfl
  · rfl

/-- Witness for C7's amended theorem: an empty endpoint list makes the Load
Balancer fail, and the handler answers status 500 without hijacking. -/
theorem websocketProxy_error_responds_500_witness :
    websocketProxy (logOps []) (fun _ => false) (fun _ => 0) "svc" "v1" [] true =
      { status := some statusInternalServerError, hijacked := false } := by
  have hlb : loadBalance (logOps []) (fun _ => false) (fun _ => 0)
      "svc" "v1" [] = (LBResult.noEndpoint, []) := by
    show loadBalanceLoop (logOps []) (fun _ => false) (fun _ => 0)
        "svc" "v1" 0 [] [] = (LBResult.noEndpoint, [])
    rw [loadBalanceLoop]
    simp
  exact websocketProxy_error_responds_500 (logOps []) (fun _ => false)
    (fun _ => 0) "svc" "v1" [] true (fun e => by rw [hlb]; simp)

/-- C7 counterexample: with one endpoint that fails to dial, `LoadBalance`
exhausts the list and the handler responds with status 500 — which is not a
502-class status — contradicting the claimed "502-class error" response. -/
theorem websocketProxy_noEndpoint_not_502 :
    websocketProxy (logOps ["a"]) (fun _ => false) (fun _ => 0)
        "svc" "v1" [] true =
      { status := some 500, hijacked := false } ∧
    ¬ gateway502Range 500 := by
  have hlb : loadBalance (logOps ["a"]) (fun _ => false) (fun _ => 0)
      "svc" "v1" [] = (LBResult.noEndpoint, ["a"]) := by
    show loadBalanceLoop (logOps ["a"]) (fun _ => false) (fun _ => 0)
        "svc" "v1" 0 ["a"] [] = (LBResult.noEndpoint, ["a"])
    rw [loadBalanceLoop]
    simp only [selectIndex, removeLocal, logOps]
    norm_num
    rw [loadBalanceLoop]
    simp
  constructor
  · have h1 : (loadBalance (logOps ["a"]) (fun _ => false) (fun _ => 0)
        "svc" "v1" []).1 = LBResult.noEndpoint := by rw [hlb]
    unfold websocketProxy
    rw [h1]
    rfl
  · intro hcl
    exact absurd hcl.1 (by omega)

/-- The leading-slash strip of `extractNameVersion`:
`if len(path) > 1 && path[0] == '/' { path = path[1:] }`. Paths are embedded
as `List Char`. -/
def stripLeadingSlash (path : List Char) : List Char :=
  if 1 < path.length ∧ path.headD ' ' = '/' then path.tail else path

/-- `extractNameVersion` from goproxy.go: strip one leading slash, split the
path on `'/'` (`strings.Split`, embedded as `List.splitOn`), fail with
"Invalid path" when fewer than two segments result, and otherwise return the
first two segments together with the rewritten path
`"/" + strings.Join(tmp[2:], "/")`. -/
def extractNameVersion (path : List Char) :
    Except String (List Char × List Char × List Char) :=
  match (stripLeadingSlash path).splitOn '/' with
  | tmp0 :: tmp1 :: rest =>
    Except.ok (tmp0, tmp1, '/' :: List.intercalate ['/'] rest)
  | _ => Except.error "Invalid path"

/-- Spec-side count of the NON-EMPTY `'/'`-separated segments of a path,
following the claim's words "first two non-empty path segments". -/
def nonEmptySegCount (path : List Char) : Nat :=
  ((path.splitOn '/').filter (fun s => !s.isEmpty)).length

theorem two_le_splitOn_length {l : List Char} (h : ('/' : Char) ∈ l) :
    2 ≤ (l.splitOn '/').length := by
  induction l with
  | nil => simp at h
  | cons c rest ih =>
    show 2 ≤ ((c :: rest).splitOnP (· == '/')).length
    rw [List.splitOnP_cons]
    by_cases hc : c = '/'
    · rw [if_pos (by simp [hc])]
      have hne := List.splitOnP_ne_nil (· == ('/' : Char)) rest
      have h1 : 1 ≤ (rest.splitOnP (· == ('/' : Char))).length :=
        List.length_pos.2 hne
      simpa using Nat.succ_le_succ h1
    · rw [if_neg (by simp [hc])]
      rw [List.length_modifyHead]
      have hmem : ('/' : Char) ∈ rest := by
        rcases List.mem_cons.1 h with h' | h'
        · exact absurd h'.symm hc
        · exact h'
      exact ih hmem

theorem splitOn_eq_single {l : List Char} (h : ('/' : Char) ∉ l) :
    l.splitOn '/' = [l] := by
  show l.splitOnP (· == '/') = [l]
  exact List.splitOnP_eq_single _ _
    (fun x hx hbe => h ((eq_of_beq hbe) ▸ hx))

/-- C8 (amended): `extractNameVersion` fails with `InvalidPath` exactly when
the path, after stripping one leading slash (only done when the path is longer
than one character), contains no `'/'` — i.e. splits into fewer than two
(possibly empty) segments. The extracted name and version are the first two
RAW segments, which may be empty; the path `/svc1` still fails, but `/` now
SUCCEEDS with empty name and version, since it splits into two empty
segments. -/
theorem extractNameVersion_error_iff (path : List Char) :
    extractNameVersion path = Except.error "Invalid path" ↔
      ('/' : Char) ∉ stripLeadingSlash path := by
  rcases hsp : (stripLeadingSlash path).splitOn '/' with _ | ⟨a, _ | ⟨b, rest⟩⟩
  · exact absurd hsp (by
      have hne := List.splitOnP_ne_nil (· == ('/' : Char)) (stripLeadingSlash path)
      simpa [List.splitOn] using hne)
  · have hlhs : extractNameVersion path = Except.error "Invalid path" := by
      unfold extractNameVersion
      rw [hsp]
    have hrhs : ('/' : Char) ∉ stripLeadingSlash path := by
      intro hmem
      have h2 := two_le_splitOn_length hmem
      rw [hsp] at h2
      simp at h2
    exact iff_of_true hlhs hrhs
  · have hlhs : extractNameVersion path =
        Except.ok (a, b, '/' :: List.intercalate ['/'] rest) := by
      unfold extractNameVersion
      rw [hsp]
    have hrhs : ¬ ('/' : Char) ∉ stripLeadingSlash path := by
      intro hnot
      have hsingle := splitOn_eq_single hnot
      rw [hsp] at hsingle
      simp at hsingle
    constructor
    · intro h
      rw [hlhs] at h
      cases h
    · intro h
      exact absurd h hrhs

/-- C8 counterexample: the path `/` — which has zero non-empty segments —
does NOT fail: it is too short for the strip, splits into two empty segments,
and `extractNameVersion` succeeds with empty name and version. -/
theorem extractNameVersion_root_succeeds :
    extractNameVersion ['/'] = Except.ok ([], [], ['/']) ∧
    nonEmptySegCount ['/'] = 0 := by
  constructor
  · rfl
  · rfl

/-- C9: for every path `/<name>/<version>/<rest...>` with at least two
'/'-free segments, `extractNameVersion` returns the first two segments as
name and version and rewrites the path to `/<rest...>`. -/
theorem extractNameVersion_ok_general (a b : List Char) (rest : List (List Char))
    (ha : ('/' : Char) ∉ a) (hb : ('/' : Char) ∉ b)
    (hrest : ∀ s ∈ rest, ('/' : Char) ∉ s) :
    extractNameVersion ('/' :: List.intercalate ['/'] (a :: b :: rest)) =
      Except.ok (a, b, '/' :: List.intercalate ['/'] rest) := by
  have hx : ∀ l ∈ a :: b :: rest, ('/' : Char) ∉ l := by
    intro l hl
    rcases List.mem_cons.1 hl with h | h
    · exact h ▸ ha
    · rcases List.mem_cons.1 h with h' | h'
      · exact h' ▸ hb
      · exact hrest l h'
  have hsplit : (List.intercalate ['/'] (a :: b :: rest)).splitOn '/' =
      a :: b :: rest :=
    List.splitOn_intercalate (a :: b :: rest) '/' hx (List.cons_ne_nil _ _)
  have hIne : List.intercalate ['/'] (a :: b :: rest) ≠ [] := by
    intro h0
    rw [h0, List.splitOn_nil] at hsplit
    simp at hsplit
  have hstrip : stripLeadingSlash ('/' :: List.intercalate ['/'] (a :: b :: rest)) =
      List.intercalate ['/'] (a :: b :: rest) := by
    unfold stripLeadingSlash
    rw [if_pos ⟨by simpa using List.length_pos.2 hIne, rfl⟩]
    rfl
  unfold extractNameVersion
  rw [hstrip, hsplit]

/-- Witness for C9 at the spec's example `/svc1/v2/foo/bar`: name `svc1`,
version `v2`, rewritten path `/foo/bar`. -/
theorem extractNameVersion_ok_witness :
    extractNameVersion
        ('/' :: List.intercalate ['/']
          (['s', 'v', 'c', '1'] :: ['v', '2'] ::
            [['f', 'o', 'o'], ['b', 'a', 'r']])) =
      Except.ok (['s', 'v', 'c', '1'], ['v', '2'],
        '/' :: List.intercalate ['/'] [['f', 'o', 'o'], ['b', 'a', 'r']]) :=
  extractNameVersion_ok_general ['s', 'v', 'c', '1'] ['v', '2']
    [['f', 'o', 'o'], ['b', 'a', 'r']] (by decide) (by decide) (by decide)

/-- A Go slice header together with its backing array, as stored in the
`DefaultRegistry` map for one (name, version) entry: `backing` holds the
contents of the backing array from the slice's base (so `backing.length` is
the capacity) and `len` is the header's length. `Lookup` returns this header
itself, without copying, so the caller's `endpoints` slice and the registry's
stored entry share `backing`. -/
structure GoSlice where
  backing : List String
  len : Nat
deriving DecidableEq, Repr

/-- The element sequence a reader of a slice observes: the first `len` cells
of the backing array. -/
def GoSlice.view (s : GoSlice) : List String := s.backing.take s.len

/-- The heap effect of `append(endpoints[:i], endpoints[i+1:]...)` on the
shared backing array, for a local header of length `L` with `i < L ≤ cap` (as
in `loadBalance`): `endpoints[:i]` keeps the same base and `L - 1 ≤ cap`, so
Go reuses the array in place, moving cells `i+1 .. L-1` down to `i .. L-2`;
cells `0 .. i-1` and `L-1 ..` keep their old values. -/
def appendInPlace (backing : List String) (i L : Nat) : List String :=
  backing.take i ++ (backing.drop (i + 1)).take (L - 1 - i) ++
    backing.drop (L - 1)

theorem appendInPlace_length {backing : List String} {i L : Nat}
    (h1 : i < L) (h2 : L ≤ backing.length) :
    (appendInPlace backing i L).length = backing.length := by
  simp only [appendInPlace, List.length_append, List.length_take,
    List.length_drop]
  omega

theorem appendInPlace_take {backing : List String} {i L : Nat}
    (h1 : i < L) (h2 : L ≤ backing.length) :
    (appendInPlace backing i L).take (L - 1) =
      removeLocal (backing.take L) i := by
  have hlA : (backing.take i).length = i := by
    rw [List.length_take]
    omega
  have hlB : ((backing.drop (i + 1)).take (L - 1 - i)).length = L - 1 - i := by
    rw [List.length_take, List.length_drop]
    omega
  unfold appendInPlace removeLocal
  rw [List.take_append_eq_append_take, List.length_append, hlA, hlB]
  have h0 : L - 1 - (i + (L - 1 - i)) = 0 := by omega
  rw [h0, List.take_zero, List.append_nil]
  rw [List.take_of_length_le (by rw [List.length_append, hlA, hlB]; omega)]
  rw [List.take_take, List.drop_take]
  have hm3 : i ⊓ L = i := by omega
  have hm4 : L - (i + 1) = L - 1 - i := by omega
  rw [hm3, hm4]

/-- The retry loop of `loadBalance` with the heap made explicit: `backing` is
the shared backing array (also the registry entry's), and the last argument
is the length of the loop's LOCAL slice header, which starts equal to the
stored header's length and shrinks by one per failed dial while the stored
header keeps its length. `rand k % (L + 1)` is `i := rand.Int() %
len(endpoints)` for the local header; the read `endpoints[i]` is a read of
`backing` at `i` since the local header keeps base 0; the failure branch is
the in-place `append`. Returns the result and the backing array as the loop
leaves it. -/
def loadBalanceLoopAliased (dial : String → Bool) (rand : Nat → Nat) :
    Nat → List String → Nat → LBResult × List String
  | _, backing, 0 => (LBResult.noEndpoint, backing)
  | k, backing, L + 1 =>
    if dial (backing.getD (rand k % (L + 1)) "") then
      (LBResult.conn (backing.getD (rand k % (L + 1)) ""), backing)
    else
      loadBalanceLoopAliased dial rand (k + 1)
        (appendInPlace backing (rand k % (L + 1)) (L + 1)) L

/-- The pure loop `loadBalanceLoop` is the local VIEW of the aliased loop:
both runs make the same random draws, dial the same endpoints in the same
order and return the same result, because the loop-local slice view of the
in-place `append` is exactly `removeLocal` (`appendInPlace_take`). This ties
the loop used in the load-balancing theorems to the heap-level model. -/
theorem loadBalanceLoopAliased_fst (dial : String → Bool) (rand : Nat → Nat)
    (name version : String) (eps0 : List String) :
    ∀ (L k : Nat) (backing : List String) (s : List String),
      L ≤ backing.length →
      (loadBalanceLoopAliased dial rand k backing L).1 =
        (loadBalanceLoop (logOps eps0) dial rand name version k
          (backing.take L) s).1 := by
  intro L
  induction L with
  | zero =>
    intro k backing s h
    rw [loadBalanceLoop]
    rfl
  | succ L ih =>
    intro k backing s h
    have hlen : (backing.take (L + 1)).length = L + 1 := by
      rw [List.length_take]
      omega
    have hne : backing.take (L + 1) ≠ [] := by
      intro h0
      rw [h0] at hlen
      simp at hlen
    have hsel : selectIndex rand k (backing.take (L + 1)) = rand k % (L + 1) := by
      unfold selectIndex
      rw [hlen]
    have hi : rand k % (L + 1) < L + 1 := Nat.mod_lt _ (Nat.succ_pos L)
    have hgetD : (backing.take (L + 1)).getD (rand k % (L + 1)) "" =
        backing.getD (rand k % (L + 1)) "" := by
      rw [List.getD_eq_getElem?_getD, List.getD_eq_getElem?_getD,
        List.getElem?_take, if_pos hi]
    rw [loadBalanceLoop, dif_neg hne, hsel, hgetD]
    show (loadBalanceLoopAliased dial rand k backing (L + 1)).1 = _
    rw [loadBalanceLoopAliased]
    by_cases hd : dial (backing.getD (rand k % (L + 1)) "") = true
    · rw [if_pos hd, if_pos hd]
    · rw [if_neg hd, if_neg hd]
      have hbridge : (appendInPlace backing (rand k % (L + 1)) (L + 1)).take L =
          removeLocal (backing.take (L + 1)) (rand k % (L + 1)) := by
        have hb := @appendInPlace_take backing (rand k % (L + 1)) (L + 1) hi (by omega)
        simpa using hb
      have hlen2 : L ≤ (appendInPlace backing (rand k % (L + 1)) (L + 1)).length := by
        rw [appendInPlace_length hi (by omega)]
        omega
      rw [← hbridge]
      exact ih (k + 1) _ _ hlen2

/-- `loadBalance` on one registry entry with Go's slice semantics explicit:
`reg.Lookup` returns the stored slice header uncopied, so the loop's local
header starts as a copy of the header — same backing array, same length —
while the registry keeps its stored header. After the call the entry's
header is unchanged but its backing array carries the loop's in-place
writes; the returned `GoSlice` is the entry as a later `Lookup` observes
it. -/
def loadBalanceAliased (dial : String → Bool) (rand : Nat → Nat)
    (entry : GoSlice) : LBResult × GoSlice :=
  let r := loadBalanceLoopAliased dial rand 0 entry.backing entry.len
  (r.1, { backing := r.2, len := entry.len })

/-- C1 (code bug): the claim — and the spec's design rationale — say a failed
dial removes the endpoint only from the call-local candidate list, so a
`Lookup(name, version)` after `loadBalance` returns the same endpoint
sequence as one before. The code violates this: `Lookup` returns the map's
slice uncopied, and `append(endpoints[:i], endpoints[i+1:]...)` writes
through the shared backing array. At the failing input — stored entry
`["A", "B", "C"]` (len = cap = 3), random stream constantly 0, dialing "A"
fails and "B" succeeds — the call returns a connection to "B", and the entry
a later `Lookup` observes has become `["B", "C", "C"]`: "A" is lost, "C" is
duplicated, and the sequence differs from the `["A", "B", "C"]` observed
before the call. -/
theorem loadBalance_aliasing_corrupts_registry :
    (loadBalanceAliased (fun e => e == "B") (fun _ => 0)
        { backing := ["A", "B", "C"], len := 3 }).1 = LBResult.conn "B" ∧
    ((loadBalanceAliased (fun e => e == "B") (fun _ => 0)
        { backing := ["A", "B", "C"], len := 3 }).2).view = ["B", "C", "C"] ∧
    GoSlice.view { backing := ["A", "B", "C"], len := 3 } = ["A", "B", "C"] ∧
    ((loadBalanceAliased (fun e => e == "B") (fun _ => 0)
        { backing := ["A", "B", "C"], len := 3 }).2).view ≠
      GoSlice.view { backing := ["A", "B", "C"], len := 3 } := by
  refine ⟨?_, ?_, ?_, ?_⟩ <;> decide
